import Mathlib

/-!
Verification of the essay word-count pipeline (gautampuneet/firefly-ai-assignment)
against its natural-language specification.

The Python sources are shallowly embedded as Lean functions:

* JSON documents (the URL cache `processed_links.json` and the job registry
  `processed_files.json`) are association lists `List (String × β)` in
  insertion order, mirroring Python `dict` semantics (`lookupA`, `upsert`,
  `updateMap` for `dict.update` as performed by `write_to_json`).
* `collections.Counter(words)` is `counterOf`; Python `set(...)` built from a
  list is `pySet` (first-occurrence deduplication; iteration order of a Python
  set is unspecified, and the claims use only set membership).
* The network is an oracle `env : String → Nat → FetchReply` giving, for each
  URL and attempt index, either the whitespace-split visible text of the page
  (the part produced by BeautifulSoup `get_text().split()`, which is not
  modellable further), a 429 rate-limit reply, or a client error.
* `UploadEssaysFileUseCase.execute` is `executeUpload`; the concurrent
  `asyncio.gather` within one batch is modelled by a sequential fold in task
  submission order (per the spec, completion order within a batch is
  unspecified; the claims only use set-level facts about a batch's results).
-/

/-- Python `dict` lookup on an insertion-ordered association list. -/
def lookupA {β : Type} : List (String × β) → String → Option β
  | [], _ => none
  | p :: m, k => if p.1 = k then some p.2 else lookupA m k

/-- Python `key in dict` membership test. -/
def hasKey {β : Type} (m : List (String × β)) (k : String) : Bool :=
  (lookupA m k).isSome

/-- Python `dict[k] = v`: replace the value in place if the key exists,
otherwise append the new pair at the end. -/
def upsert {β : Type} : List (String × β) → String → β → List (String × β)
  | [], k, v => [(k, v)]
  | p :: m, k, v => if p.1 = k then (k, v) :: m else p :: upsert m k v

/-- Python `old.update(new)` — the merge performed by `write_to_json` in
src/common/utility.py: each key of `new` is inserted or overwritten, and no
key is ever removed. -/
def updateMap {β : Type} (old new : List (String × β)) : List (String × β) :=
  new.foldl (fun m p => upsert m p.1 p.2) old

/-- First-occurrence key order of a list, as `collections.Counter` records
keys (and as our model of building a Python `set` from a list). -/
def counterKeys (ws : List String) : List String :=
  ws.foldl (fun acc w => if w ∈ acc then acc else acc ++ [w]) []

/-- Model of `collections.Counter(ws)`: keys in first-occurrence order, each
mapped to its number of occurrences in `ws`. -/
def counterOf (ws : List String) : List (String × Nat) :=
  (counterKeys ws).map (fun w => (w, ws.count w))

/-- Model of Python `set(l)` for string lists (deduplicated; claims use only
membership, since Python set iteration order is unspecified). -/
def pySet (l : List String) : List String :=
  counterKeys l

/-- Model of Python `str.strip()` restricted to whitespace stripping. -/
def pyStrip (s : String) : String :=
  ⟨((s.data.dropWhile Char.isWhitespace).reverse.dropWhile Char.isWhitespace).reverse⟩

/-- Model of Python `str.isalpha()` (ASCII fragment): nonempty and all
characters alphabetic. -/
def pyIsAlpha (s : String) : Bool :=
  !s.isEmpty && s.data.all Char.isAlpha

/-- Model of Python list slicing `l[:k]` for an `int` bound `k`: a
non-negative bound takes the first `k` elements, a negative bound drops the
last `|k|` elements. -/
def pySlice {α : Type} (k : Int) (l : List α) : List α :=
  if 0 ≤ k then l.take k.toNat else l.take (l.length - (-k).toNat)

/-- Constants of src/common/constants.py (class `Configuration`); the absent
module src/essays/common/constants.py (`EssayConfiguration`) is modelled from
the spec as carrying the same values (MaxRetries = 5, default top-K = 10). -/
def MAX_RETRY_FOR_BACKOFF : Nat := 5

/-- Documented default for the top-K query parameter
(`Configuration.DEFAULT_TOP_WORDS_COUNT`). -/
def DEFAULT_TOP_WORDS_COUNT : Nat := 10

/-- Modelled from the spec: the job-status enumeration `FileStatus` of the
absent module src/essays/common/constants.py, with statuses Processing,
Processed and Failed (spec §3). -/
inductive FileStatus where
  | processing
  | processed
  | failed
deriving DecidableEq, Repr

/-- One job record of the job registry (`processed_files.json`), as written
by `UploadEssaysFileUseCase.execute`. -/
structure JobRecord where
  file_name : String
  status : FileStatus
  http_urls : List String
  failed_urls : List String
deriving DecidableEq, Repr

/-- Error message from src/essays/common/error_messages.py. -/
def FILE_DOES_NOT_EXIST : String :=
  "File id does not exist, Please verify and try again."

/-- Error message from src/essays/common/error_messages.py (note the
capitalisation used by the source). -/
def FILE_STILL_GETTING_PROCESSED : String :=
  "File is Still Getting Processed, Please check after sometime."

/-- One reply of the network oracle for a single fetch attempt of a URL:
either the whitespace-split visible text of the page, an HTTP 429, or a
non-retryable client error. -/
inductive FetchReply where
  | ok (tokens : List String)
  | rateLimited
  | clientError
deriving DecidableEq, Repr

/-- The retry loop of `fetch_and_filter_content`: starting at attempt index
`attempt` with `fuel` remaining allowed attempts, query the oracle; a 429
consumes one attempt and retries, a success or client error stops. Returns
the tokens (if any) and the total number of attempts made. -/
def fetchAttempts (env : Nat → FetchReply) : Nat → Nat → Option (List String) × Nat
  | attempt, 0 => (none, attempt)
  | attempt, fuel + 1 =>
    match env attempt with
    | .ok toks => (some toks, attempt + 1)
    | .rateLimited => fetchAttempts env (attempt + 1) fuel
    | .clientError => (none, attempt + 1)

/-- Vocabulary filtering of one page's tokens, from
`fetch_and_filter_content` line 166: keep a token iff it is (exactly) a
member of the word bank, then strip and lowercase the kept tokens. -/
def filterTokens (bank : List String) (tokens : List String) : List String :=
  (tokens.filter (fun w => bank.contains w)).map (fun w => (pyStrip w).toLower)

/-- `fetch_and_filter_content` for one URL: run the retry loop with
`MAX_RETRY_FOR_BACKOFF` allowed attempts and filter the fetched tokens on
success. Returns the filtered words (if any) and the number of attempts. -/
def fetchAndFilterContent (bank : List String) (env : Nat → FetchReply) :
    Option (List String) × Nat :=
  match fetchAttempts env 0 MAX_RETRY_FOR_BACKOFF with
  | (some toks, n) => (some (filterTokens bank toks), n)
  | (none, n) => (none, n)

/-- Whether the fetch of `url` eventually succeeds under oracle `env` (within
the retry budget). -/
def fetchSucceeds (bank : List String) (env : String → Nat → FetchReply) (url : String) : Bool :=
  (fetchAndFilterContent bank (env url)).1.isSome

/-- The cache entry `Counter(words)` that a successful fetch of `url` stores
(`processed_urls[url] = Counter(words)`); defaults to the empty counter when
the fetch fails (in which case it is never stored). -/
def urlEntryVal (bank : List String) (env : String → Nat → FetchReply) (url : String) :
    List (String × Nat) :=
  ((fetchAndFilterContent bank (env url)).1.map counterOf).getD []

/-- The per-URL step sequence of `fetch_and_filter_batch` starting from the
accumulated `(processed_urls, failed_urls)` pair: record `Counter(words)`
under the URL on success, append the URL to the batch's `failed_urls` list on
failure. -/
def runBatchFrom (bank : List String) (env : String → Nat → FetchReply)
    (acc : List (String × List (String × Nat)) × List String) :
    List String → List (String × List (String × Nat)) × List String
  | [] => acc
  | url :: rest =>
    match (fetchAndFilterContent bank (env url)).1 with
    | some words => runBatchFrom bank env (upsert acc.1 url (counterOf words), acc.2) rest
    | none => runBatchFrom bank env (acc.1, acc.2 ++ [url]) rest

/-- `fetch_and_filter_batch`: process the URLs of one batch (task submission
order) starting from an empty `processed_urls` dict and `failed_urls` list. -/
def runBatch (bank : List String) (env : String → Nat → FetchReply) (batch : List String) :
    List (String × List (String × Nat)) × List String :=
  runBatchFrom bank env ([], []) batch

/-- The batch slicing of `execute`:
`range(0, len(urls), batchSize)` with slices `urls[start : start+batchSize]`
(one slice per loop index; `(len + size - 1) / size` is the number of loop
iterations of the Python `range` for a positive step). -/
def batchesOf {α : Type} (size : Nat) (l : List α) : List (List α) :=
  (List.range ((l.length + size - 1) / size)).map (fun i => (l.drop (i * size)).take size)

/-- The deduplicated submitted URL set `set(http_urls)` stored in the job
record. -/
def submittedOf (http_urls : List String) : List String :=
  pySet http_urls

/-- Joint mutable state of the two persisted JSON documents: the URL cache
(`processed_links.json`) and the job registry (`processed_files.json`). -/
structure PipelineState where
  cache : List (String × List (String × Nat))
  registry : List (String × JobRecord)
deriving DecidableEq, Repr

/-- Line 58 of `execute`: drop falsy (empty) URLs and URLs already present in
the pre-job cache snapshot. -/
def filteredOf (st : PipelineState) (http_urls : List String) : List String :=
  (submittedOf http_urls).filter (fun u => (!(u == "")) && !(hasKey st.cache u))

/-- The batch sequence a run processes. -/
def batchesFor (st : PipelineState) (batchSize : Nat) (http_urls : List String) :
    List (List String) :=
  batchesOf batchSize (filteredOf st http_urls)

/-- The cache document after committing (merging) the results of the given
batches in order, starting from `c0` — one `write_to_json` per batch. -/
def cacheAfterBatches (bank : List String) (env : String → Nat → FetchReply)
    (c0 : List (String × List (String × Nat))) (bs : List (List String)) :
    List (String × List (String × Nat)) :=
  bs.foldl (fun c b => updateMap c (runBatch bank env b).1) c0

/-- `UploadEssaysFileUseCase.execute` on the no-exception path: write the
Processing record, filter out empty and already-cached URLs, process the
batches sequentially (committing each batch's successes to the cache, and —
as the source does — REBINDING `failed_urls` to each batch's own failure
list), then finalize the job record as Processed with the last binding of
`failed_urls`. Returns the new state and the returned `failed_urls`. -/
def executeUpload (env : String → Nat → FetchReply) (bank : List String)
    (batchSize : Nat) (http_urls : List String) (file_name file_id : String)
    (st : PipelineState) : PipelineState × List String :=
  let submitted := submittedOf http_urls
  let reg1 := updateMap st.registry
    [(file_id, ⟨file_name, FileStatus.processing, submitted, []⟩)]
  let batches := batchesFor st batchSize http_urls
  let final := batches.foldl
    (fun acc b => (updateMap acc.1 (runBatch bank env b).1, (runBatch bank env b).2))
    (st.cache, ([] : List String))
  let regF := updateMap reg1
    [(file_id, ⟨file_name, FileStatus.processed, submitted, final.2⟩)]
  (⟨final.1, regF⟩, final.2)

/-- `get_word_banks`: on HTTP 200, keep the lines that are entirely
alphabetic and longer than 2 characters, strip and lowercase them, and
deduplicate into a set; on any other status return the empty vocabulary. -/
def getWordBanks (status : Nat) (lines : List String) : List String :=
  if status = 200 then
    pySet ((lines.filter (fun w => pyIsAlpha w && decide (2 < w.length))).map
      (fun w => (pyStrip w).toLower))
  else []

/-- `GetMaxCountsBasedOnID.execute` line 240: `if not self.top_words` — a
Python `int` is falsy exactly when it is `0`, so only `0` (the router's
"unspecified" default) falls back to the documented default; negative values
pass through. -/
def resolveTopWords (k : Int) : Int :=
  if k = 0 then (DEFAULT_TOP_WORDS_COUNT : Int) else k

/-- `aggregate_word_counts`: sum the per-word counts of exactly the cache
entries whose key is in the URL scope, into a `defaultdict(int)` in
first-seen word order. -/
def addCount : List (String × Nat) → String → Nat → List (String × Nat)
  | [], w, c => [(w, c)]
  | p :: m, w, c => if p.1 = w then (w, p.2 + c) :: m else p :: addCount m w c

/-- Aggregation over the in-scope cache entries (`aggregate_word_counts`). -/
def aggregateWordCounts (data : List (String × List (String × Nat)))
    (scope : List String) : List (String × Nat) :=
  data.foldl
    (fun acc e =>
      if e.1 ∈ scope then e.2.foldl (fun a wc => addCount a wc.1 wc.2) acc
      else acc)
    []

/-- The descending-by-count order used by
`sorted(total_counts.items(), key=lambda x: x[1], reverse=True)`; the tie
order among equal counts is incidental in the source (spec §9). -/
def countGE (a b : String × Nat) : Prop :=
  b.2 ≤ a.2

instance : DecidableRel countGE :=
  fun a b => inferInstanceAs (Decidable (b.2 ≤ a.2))

instance : IsTotal (String × Nat) countGE :=
  ⟨fun a b => le_total b.2 a.2⟩

instance : IsTrans (String × Nat) countGE :=
  ⟨fun _ _ _ h1 h2 => le_trans h2 h1⟩

/-- `get_top_words`: aggregate, sort by count descending, and slice the first
`k` entries (`sorted_words[:k]`, with Python slicing semantics for negative
`k`). -/
def getTopWords (data : List (String × List (String × Nat)))
    (scope : List String) (k : Int) : List (String × Nat) :=
  pySlice k (List.insertionSort countGE (aggregateWordCounts data scope))

/-- Response shape of the query-by-id endpoint. -/
inductive QueryResponse where
  | message (text : String)
  | result (top_words : List (String × Nat)) (failed_urls : List String) (file_id : String)
deriving DecidableEq, Repr

/-- Whether a query response is the finalized-result shape. -/
def isResultShape : QueryResponse → Bool
  | .result _ _ _ => true
  | .message _ => false

/-- `GetMaxCountsBasedOnID.check_status_in_file`: a registry hit with status
Processed yields the record; a miss yields the does-not-exist message; any
other hit yields the still-getting-processed message. -/
def checkStatusInFile (registry : List (String × JobRecord)) (fid : String) :
    Option JobRecord × String :=
  match lookupA registry fid with
  | some r =>
    if r.status = FileStatus.processed then (some r, "")
    else (none, FILE_STILL_GETTING_PROCESSED)
  | none => (none, FILE_DOES_NOT_EXIST)

/-- `GetMaxCountsBasedOnID.execute`: resolve the top-K parameter, dispatch on
the registry state, and aggregate only for a Processed record. -/
def getMaxCountsExecute (registry : List (String × JobRecord))
    (cache : List (String × List (String × Nat))) (fid : String) (top_words : Int) :
    QueryResponse :=
  let k := resolveTopWords top_words
  match checkStatusInFile registry fid with
  | (some r, _) => .result (getTopWords cache r.http_urls k) r.failed_urls fid
  | (none, msg) => .message msg

/-- Count held for a word by an association-list counter (`dict.get(w, 0)`). -/
def lookupCount (m : List (String × Nat)) (w : String) : Nat :=
  (lookupA m w).getD 0

/-- Total count contributed by one cache entry for one word: the sum of the
values stored under that word in the entry, `0` when the word is absent. -/
def entryCount (wc : List (String × Nat)) (w : String) : Nat :=
  ((wc.filter (fun p => p.1 == w)).map (fun p => p.2)).sum

theorem lookupA_upsert {β : Type} (m : List (String × β)) (k : String) (v : β) (k' : String) :
    lookupA (upsert m k v) k' = if k = k' then some v else lookupA m k' := by
  induction m with
  | nil => simp [upsert, lookupA]
  | cons p m ih =>
    by_cases hpk : p.1 = k <;> by_cases hkk' : k = k' <;>
      simp_all [upsert, lookupA]

theorem mem_upsert {β : Type} {m : List (String × β)} {k : String} {v : β} {p : String × β}
    (h : p ∈ upsert m k v) : p ∈ m ∨ p = (k, v) := by
  induction m with
  | nil =>
    simp only [upsert, List.mem_singleton] at h
    exact Or.inr h
  | cons q m ih =>
    by_cases hq : q.1 = k
    · simp only [upsert, if_pos hq, List.mem_cons] at h
      rcases h with h | h
      · exact Or.inr h
      · exact Or.inl (List.mem_cons_of_mem _ h)
    · simp only [upsert, if_neg hq, List.mem_cons] at h
      rcases h with h | h
      · exact Or.inl (by simp [h])
      · rcases ih h with h' | h'
        · exact Or.inl (List.mem_cons_of_mem _ h')
        · exact Or.inr h'

theorem lookupA_updateMap_valueDet {β : Type} (f : String → β) :
    ∀ (new old : List (String × β)), (∀ p ∈ new, p.2 = f p.1) → ∀ u,
      lookupA (updateMap old new) u =
        if hasKey new u then some (f u) else lookupA old u := by
  intro new
  induction new with
  | nil => intro old _ u; simp [updateMap, hasKey, lookupA]
  | cons p rest ih =>
    intro old hval u
    have hstep : updateMap old (p :: rest) = updateMap (upsert old p.1 p.2) rest := by
      simp [updateMap]
    rw [hstep, ih (upsert old p.1 p.2) (fun q hq => hval q (List.mem_cons_of_mem _ hq)) u]
    by_cases hrest : hasKey rest u
    · have hcons : hasKey (p :: rest) u = true := by
        simp only [hasKey, lookupA] at hrest ⊢
        by_cases hp : p.1 = u <;> simp [hp, hrest]
      simp [hrest, hcons]
    · rw [if_neg hrest, lookupA_upsert]
      by_cases hp : p.1 = u
      · have hcons : hasKey (p :: rest) u = true := by
          simp [hasKey, lookupA, hp]
        rw [if_pos hp, if_pos hcons, hval p (List.mem_cons_self p rest)]
        simp [hp]
      · have hcons : hasKey (p :: rest) u = false := by
          simp only [hasKey, lookupA, if_neg hp]
          simpa [hasKey] using hrest
        simp [if_neg hp, hcons]

theorem lookupA_updateMap_of_not_hasKey {β : Type} :
    ∀ (new old : List (String × β)) (u : String), ¬ hasKey new u →
      lookupA (updateMap old new) u = lookupA old u := by
  intro new
  induction new with
  | nil => intro old u _; simp [updateMap]
  | cons p rest ih =>
    intro old u hnk
    have hp : ¬ p.1 = u := by
      intro hp
      exact hnk (by simp [hasKey, lookupA, hp])
    have hrest : ¬ hasKey rest u := by
      intro hr
      apply hnk
      simp only [hasKey, lookupA] at hr ⊢
      simp [if_neg hp, hr]
    have hstep : updateMap old (p :: rest) = updateMap (upsert old p.1 p.2) rest := by
      simp [updateMap]
    rw [hstep, ih _ u hrest, lookupA_upsert, if_neg hp]

theorem mem_counterKeys_foldl (l : List String) :
    ∀ (acc : List String) (x : String),
      x ∈ l.foldl (fun acc w => if w ∈ acc then acc else acc ++ [w]) acc ↔
        x ∈ acc ∨ x ∈ l := by
  induction l with
  | nil => intro acc x; simp
  | cons w l ih =>
    intro acc x
    by_cases hw : w ∈ acc
    · simp only [List.foldl_cons, if_pos hw, ih, List.mem_cons]
      constructor
      · rintro (h | h)
        · exact Or.inl h
        · exact Or.inr (Or.inr h)
      · rintro (h | h | h)
        · exact Or.inl h
        · exact Or.inl (h ▸ hw)
        · exact Or.inr h
    · simp only [List.foldl_cons, if_neg hw, ih, List.mem_append, List.mem_singleton,
        List.mem_cons]
      tauto

theorem mem_counterKeys (l : List String) (x : String) :
    x ∈ counterKeys l ↔ x ∈ l := by
  simpa using mem_counterKeys_foldl l [] x

theorem nodup_counterKeys_foldl (l : List String) :
    ∀ acc : List String, acc.Nodup →
      (l.foldl (fun acc w => if w ∈ acc then acc else acc ++ [w]) acc).Nodup := by
  induction l with
  | nil => intro acc h; simpa using h
  | cons w l ih =>
    intro acc h
    by_cases hw : w ∈ acc
    · simpa [if_pos hw] using ih acc h
    · simp only [List.foldl_cons, if_neg hw]
      refine ih (acc ++ [w]) ?_
      simp [List.nodup_append, h, hw]

theorem nodup_counterKeys (l : List String) : (counterKeys l).Nodup := by
  exact nodup_counterKeys_foldl l [] List.nodup_nil

theorem lookupA_map_key {β : Type} (f : String → β) :
    ∀ (keys : List String) (x : String),
      lookupA (keys.map (fun w => (w, f w))) x = if x ∈ keys then some (f x) else none := by
  intro keys
  induction keys with
  | nil => intro x; simp [lookupA]
  | cons w ks ih =>
    intro x
    by_cases hw : w = x
    · subst hw
      simp [lookupA]
    · simp [lookupA, hw, ih x, Ne.symm hw]

theorem lookupCount_counterOf (ws : List String) (w : String) :
    lookupCount (counterOf ws) w = ws.count w := by
  unfold lookupCount counterOf
  rw [lookupA_map_key]
  by_cases hw : w ∈ counterKeys ws
  · simp [hw]
  · have hws : w ∉ ws := fun h => hw ((mem_counterKeys ws w).mpr h)
    simp [hw, List.count_eq_zero.mpr hws]

theorem count_filter_eq (p : String → Bool) (l : List String) (t : String) :
    (l.filter p).count t = if p t then l.count t else 0 := by
  by_cases hp : p t
  · rw [if_pos hp, List.count_filter hp]
  · rw [if_neg hp]
    exact List.count_eq_zero.mpr (fun h => hp (List.of_mem_filter h))

theorem not_isWhitespace_of_isAlpha {c : Char} (h : c.isAlpha = true) :
    c.isWhitespace = false := by
  have h32 : c ≠ ' ' := by rintro rfl; exact absurd h (by decide)
  have h9 : c ≠ '\t' := by rintro rfl; exact absurd h (by decide)
  have h13 : c ≠ '\r' := by rintro rfl; exact absurd h (by decide)
  have h10 : c ≠ '\n' := by rintro rfl; exact absurd h (by decide)
  simp [Char.isWhitespace, h32, h9, h13, h10]

theorem dropWhile_eq_self_of_all {p : Char → Bool} :
    ∀ {l : List Char}, (∀ c ∈ l, p c = false) → l.dropWhile p = l := by
  intro l h
  cases l with
  | nil => rfl
  | cons c cs => simp [List.dropWhile, h c (List.mem_cons_self c cs)]

theorem pyStrip_eq_self {s : String} (h : pyIsAlpha s = true) : pyStrip s = s := by
  have hall : ∀ c ∈ s.data, c.isWhitespace = false := by
    intro c hc
    have := (List.all_eq_true.mp (Bool.and_elim_right h)) c hc
    exact not_isWhitespace_of_isAlpha this
  unfold pyStrip
  rw [dropWhile_eq_self_of_all hall,
    dropWhile_eq_self_of_all (fun c hc => hall c (List.mem_reverse.mp hc)),
    List.reverse_reverse]

theorem runBatchFrom_snd (bank : List String) (env : String → Nat → FetchReply) :
    ∀ (batch : List String) (acc : List (String × List (String × Nat)) × List String),
      (runBatchFrom bank env acc batch).2 =
        acc.2 ++ batch.filter (fun u => !(fetchSucceeds bank env u)) := by
  intro batch
  induction batch with
  | nil => intro acc; simp [runBatchFrom]
  | cons url rest ih =>
    intro acc
    cases hfetch : (fetchAndFilterContent bank (env url)).1 with
    | some words =>
      have hsucc : fetchSucceeds bank env url = true := by
        simp [fetchSucceeds, hfetch]
      simp [runBatchFrom, hfetch, ih, hsucc]
    | none =>
      have hsucc : fetchSucceeds bank env url = false := by
        simp [fetchSucceeds, hfetch]
      simp [runBatchFrom, hfetch, ih, hsucc]

theorem runBatch_snd (bank : List String) (env : String → Nat → FetchReply)
    (batch : List String) :
    (runBatch bank env batch).2 = batch.filter (fun u => !(fetchSucceeds bank env u)) := by
  simpa using runBatchFrom_snd bank env batch ([], [])

theorem runBatchFrom_fst_lookup (bank : List String) (env : String → Nat → FetchReply) :
    ∀ (batch : List String) (acc : List (String × List (String × Nat)) × List String)
      (u : String),
      lookupA (runBatchFrom bank env acc batch).1 u =
        if u ∈ batch ∧ fetchSucceeds bank env u = true then some (urlEntryVal bank env u)
        else lookupA acc.1 u := by
  intro batch
  induction batch with
  | nil => intro acc u; simp [runBatchFrom]
  | cons url rest ih =>
    intro acc u
    cases hfetch : (fetchAndFilterContent bank (env url)).1 with
    | some words =>
      have hsucc : fetchSucceeds bank env url = true := by
        simp [fetchSucceeds, hfetch]
      simp only [runBatchFrom, hfetch, ih]
      by_cases hrest : u ∈ rest ∧ fetchSucceeds bank env u = true
      · rw [if_pos hrest, if_pos ⟨List.mem_cons_of_mem _ hrest.1, hrest.2⟩]
      · rw [if_neg hrest, lookupA_upsert]
        by_cases hu : url = u
        · subst hu
          rw [if_pos rfl, if_pos ⟨List.mem_cons_self url rest, hsucc⟩]
          simp [urlEntryVal, hfetch]
        · rw [if_neg hu, if_neg ?_]
          rintro ⟨hmem, hs⟩
          rcases List.mem_cons.mp hmem with h | h
          · exact hu h.symm
          · exact hrest ⟨h, hs⟩
    | none =>
      have hsucc : fetchSucceeds bank env url = false := by
        simp [fetchSucceeds, hfetch]
      simp only [runBatchFrom, hfetch, ih]
      by_cases hrest : u ∈ rest ∧ fetchSucceeds bank env u = true
      · rw [if_pos hrest, if_pos ⟨List.mem_cons_of_mem _ hrest.1, hrest.2⟩]
      · rw [if_neg hrest, if_neg ?_]
        rintro ⟨hmem, hs⟩
        rcases List.mem_cons.mp hmem with h | h
        · subst h
          rw [hsucc] at hs
          exact Bool.false_ne_true hs
        · exact hrest ⟨h, hs⟩

theorem runBatch_fst_lookup (bank : List String) (env : String → Nat → FetchReply)
    (batch : List String) (u : String) :
    lookupA (runBatch bank env batch).1 u =
      if u ∈ batch ∧ fetchSucceeds bank env u = true then some (urlEntryVal bank env u)
      else none := by
  simpa using runBatchFrom_fst_lookup bank env batch ([], []) u

theorem runBatch_fst_valueDet (bank : List String) (env : String → Nat → FetchReply) :
    ∀ (batch : List String) (acc : List (String × List (String × Nat)) × List String),
      (∀ p ∈ acc.1, p.2 = urlEntryVal bank env p.1) →
      ∀ p ∈ (runBatchFrom bank env acc batch).1, p.2 = urlEntryVal bank env p.1 := by
  intro batch
  induction batch with
  | nil => intro acc hacc p hp; exact hacc p hp
  | cons url rest ih =>
    intro acc hacc p hp
    cases hfetch : (fetchAndFilterContent bank (env url)).1 with
    | some words =>
      simp only [runBatchFrom, hfetch] at hp
      refine ih _ ?_ p hp
      intro q hq
      rcases mem_upsert hq with h | h
      · exact hacc q h
      · subst h
        simp [urlEntryVal, hfetch]
    | none =>
      simp only [runBatchFrom, hfetch] at hp
      exact ih (acc.1, acc.2 ++ [url]) hacc p hp

theorem lookupA_cacheAfterBatches (bank : List String) (env : String → Nat → FetchReply) :
    ∀ (bs : List (List String)) (c0 : List (String × List (String × Nat))) (u : String),
      lookupA (cacheAfterBatches bank env c0 bs) u =
        if (∃ b ∈ bs, u ∈ b) ∧ fetchSucceeds bank env u = true then
          some (urlEntryVal bank env u)
        else lookupA c0 u := by
  intro bs
  induction bs with
  | nil => intro c0 u; simp [cacheAfterBatches]
  | cons b rest ih =>
    intro c0 u
    have hstep : cacheAfterBatches bank env c0 (b :: rest) =
        cacheAfterBatches bank env (updateMap c0 (runBatch bank env b).1) rest := by
      simp [cacheAfterBatches]
    have hval : ∀ p ∈ (runBatch bank env b).1, p.2 = urlEntryVal bank env p.1 :=
      runBatch_fst_valueDet bank env b ([], []) (by simp)
    have hkey : hasKey (runBatch bank env b).1 u =
        (decide (u ∈ b) && fetchSucceeds bank env u) := by
      unfold hasKey
      rw [runBatch_fst_lookup]
      by_cases h : u ∈ b ∧ fetchSucceeds bank env u = true
      · simp [h, h.1, h.2]
      · rw [if_neg h]
        rcases Decidable.not_and_iff_or_not.mp h with h' | h'
        · simp [h']
        · simp [Bool.eq_false_iff.mpr h']
    rw [hstep, ih, lookupA_updateMap_valueDet (urlEntryVal bank env) _ c0 hval u, hkey]
    by_cases hsucc : fetchSucceeds bank env u = true
    · by_cases hb : u ∈ b
      · by_cases hrest : ∃ b' ∈ rest, u ∈ b'
        · simp [hsucc, hb, hrest]
        · simp [hsucc, hb, hrest]
      · by_cases hrest : ∃ b' ∈ rest, u ∈ b'
        · simp [hsucc, hb, hrest]
        · simp [hsucc, hb, hrest]
    · have hs : fetchSucceeds bank env u = false := Bool.eq_false_iff.mpr hsucc
      simp [hs]

theorem sublist_of_mem_batchesOf {α : Type} :
    ∀ (size : Nat) (l : List α) (b : List α), b ∈ batchesOf size l → b.Sublist l := by
  intro size l b hb
  simp only [batchesOf, List.mem_map, List.mem_range] at hb
  rcases hb with ⟨i, _, rfl⟩
  exact (List.take_sublist _ _).trans (List.drop_sublist _ _)

theorem execFold_fst (bank : List String) (env : String → Nat → FetchReply) :
    ∀ (bs : List (List String)) (c0 : List (String × List (String × Nat)))
      (f0 : List String),
      (bs.foldl
        (fun acc b => (updateMap acc.1 (runBatch bank env b).1, (runBatch bank env b).2))
        (c0, f0)).1 = cacheAfterBatches bank env c0 bs := by
  intro bs
  induction bs with
  | nil => intro c0 f0; simp [cacheAfterBatches]
  | cons b rest ih =>
    intro c0 f0
    simp only [List.foldl_cons]
    rw [ih]
    simp [cacheAfterBatches]

theorem execFold_snd_mem (bank : List String) (env : String → Nat → FetchReply) :
    ∀ (bs : List (List String)) (c0 : List (String × List (String × Nat)))
      (f0 : List String) (x : String),
      x ∈ (bs.foldl
        (fun acc b => (updateMap acc.1 (runBatch bank env b).1, (runBatch bank env b).2))
        (c0, f0)).2 →
      x ∈ f0 ∨ ∃ b ∈ bs, x ∈ (runBatch bank env b).2 := by
  intro bs
  induction bs with
  | nil => intro c0 f0 x hx; exact Or.inl hx
  | cons b rest ih =>
    intro c0 f0 x hx
    simp only [List.foldl_cons] at hx
    rcases ih _ _ x hx with h | ⟨b', hb', hx'⟩
    · exact Or.inr ⟨b, List.mem_cons_self b rest, h⟩
    · exact Or.inr ⟨b', List.mem_cons_of_mem _ hb', hx'⟩

theorem executeUpload_cache (env : String → Nat → FetchReply) (bank : List String)
    (batchSize : Nat) (http_urls : List String) (file_name file_id : String)
    (st : PipelineState) :
    (executeUpload env bank batchSize http_urls file_name file_id st).1.cache =
      cacheAfterBatches bank env st.cache (batchesFor st batchSize http_urls) := by
  unfold executeUpload
  simp only []
  rw [execFold_fst]

theorem executeUpload_failed_mem (env : String → Nat → FetchReply) (bank : List String)
    (batchSize : Nat) (http_urls : List String) (file_name file_id : String)
    (st : PipelineState) (x : String)
    (hx : x ∈ (executeUpload env bank batchSize http_urls file_name file_id st).2) :
    x ∈ filteredOf st http_urls ∧ fetchSucceeds bank env x = false := by
  unfold executeUpload at hx
  simp only [] at hx
  rcases execFold_snd_mem bank env _ _ _ x hx with h | ⟨b, hb, hxb⟩
  · simp at h
  · rw [runBatch_snd] at hxb
    have hxb' := List.mem_filter.mp hxb
    refine ⟨?_, by simpa using hxb'.2⟩
    exact (sublist_of_mem_batchesOf batchSize _ b hb).subset hxb'.1

theorem executeUpload_registry (env : String → Nat → FetchReply) (bank : List String)
    (batchSize : Nat) (http_urls : List String) (file_name file_id : String)
    (st : PipelineState) :
    lookupA (executeUpload env bank batchSize http_urls file_name file_id st).1.registry
        file_id =
      some ⟨file_name, FileStatus.processed, submittedOf http_urls,
        (executeUpload env bank batchSize http_urls file_name file_id st).2⟩ := by
  unfold executeUpload
  simp only []
  rw [lookupA_updateMap_valueDet
    (fun _ => (⟨file_name, FileStatus.processed, submittedOf http_urls,
      ((batchesFor st batchSize http_urls).foldl
        (fun acc b => (updateMap acc.1 (runBatch bank env b).1, (runBatch bank env b).2))
        (st.cache, [])).2⟩ : JobRecord)) _ _ (by simp)]
  simp [hasKey, lookupA]

theorem lookupCount_addCount (m : List (String × Nat)) (w' : String) (c : Nat) (w : String) :
    lookupCount (addCount m w' c) w = lookupCount m w + (if w' = w then c else 0) := by
  induction m with
  | nil =>
    by_cases h : w' = w <;> simp [addCount, lookupCount, lookupA, h]
  | cons p m ih =>
    by_cases hp : p.1 = w'
    · subst hp
      by_cases hw : p.1 = w
      · simp [addCount, lookupCount, lookupA, hw, Nat.add_comm]
      · simp [addCount, lookupCount, lookupA, hw]
    · by_cases hw : p.1 = w
      · have hne : ¬ w' = w := fun h => hp (hw.trans h.symm)
        simp only [addCount, if_neg hp, lookupCount, lookupA, if_pos hw]
        simp [hne]
      · simp only [addCount, if_neg hp, lookupCount, lookupA, if_neg hw]
        exact ih

theorem lookupCount_entryFold (acc : List (String × Nat)) (wc : List (String × Nat))
    (w : String) :
    lookupCount (wc.foldl (fun a q => addCount a q.1 q.2) acc) w =
      lookupCount acc w + entryCount wc w := by
  induction wc generalizing acc with
  | nil => simp [entryCount]
  | cons q wc ih =>
    simp only [List.foldl_cons]
    rw [ih, lookupCount_addCount]
    by_cases hq : q.1 = w
    · simp [entryCount, hq, Nat.add_assoc, Nat.add_comm]
      omega
    · have : ¬ (q.1 == w) = true := by simpa using hq
      simp [entryCount, hq, this]

theorem lookupCount_aggregate (data : List (String × List (String × Nat)))
    (scope : List String) (w : String) :
    lookupCount (aggregateWordCounts data scope) w =
      ((data.filter (fun e => decide (e.1 ∈ scope))).map (fun e => entryCount e.2 w)).sum := by
  suffices h : ∀ (acc : List (String × Nat)),
      lookupCount
        (data.foldl
          (fun acc e =>
            if e.1 ∈ scope then e.2.foldl (fun a wc => addCount a wc.1 wc.2) acc else acc)
          acc) w =
      lookupCount acc w +
        ((data.filter (fun e => decide (e.1 ∈ scope))).map (fun e => entryCount e.2 w)).sum by
    have := h []
    simpa [aggregateWordCounts, lookupCount, lookupA] using this
  induction data with
  | nil => intro acc; simp
  | cons e data ih =>
    intro acc
    by_cases he : e.1 ∈ scope
    · simp only [List.foldl_cons, if_pos he, List.filter_cons, decide_eq_true he]
      rw [ih, lookupCount_entryFold]
      simp [Nat.add_assoc]
    · simp only [List.foldl_cons, if_neg he, List.filter_cons]
      rw [ih]
      simp [he]

theorem addCount_pos {m : List (String × Nat)} {w : String} {c : Nat}
    (hm : ∀ p ∈ m, 0 < p.2) (hc : 0 < c) : ∀ p ∈ addCount m w c, 0 < p.2 := by
  induction m with
  | nil => intro p hp; simp only [addCount, List.mem_singleton] at hp; simpa [hp]
  | cons q m ih =>
    intro p hp
    by_cases hq : q.1 = w
    · simp only [addCount, if_pos hq, List.mem_cons] at hp
      rcases hp with hp | hp
      · have := hm q (List.mem_cons_self q m)
        subst hp
        simp only []
        omega
      · exact hm p (List.mem_cons_of_mem _ hp)
    · simp only [addCount, if_neg hq, List.mem_cons] at hp
      rcases hp with hp | hp
      · exact hp ▸ hm q (List.mem_cons_self q m)
      · exact ih (fun r hr => hm r (List.mem_cons_of_mem _ hr)) p hp

theorem entryFold_pos {acc wc : List (String × Nat)}
    (hacc : ∀ p ∈ acc, 0 < p.2) (hwc : ∀ q ∈ wc, 0 < q.2) :
    ∀ p ∈ wc.foldl (fun a q => addCount a q.1 q.2) acc, 0 < p.2 := by
  induction wc generalizing acc with
  | nil => intro p hp; exact hacc p hp
  | cons q wc ih =>
    intro p hp
    simp only [List.foldl_cons] at hp
    exact ih (addCount_pos hacc (hwc q (List.mem_cons_self q wc)))
      (fun r hr => hwc r (List.mem_cons_of_mem _ hr)) p hp

theorem aggregate_pos {data : List (String × List (String × Nat))} {scope : List String}
    (hdata : ∀ e ∈ data, ∀ q ∈ e.2, 0 < q.2) :
    ∀ p ∈ aggregateWordCounts data scope, 0 < p.2 := by
  suffices h : ∀ (acc : List (String × Nat)), (∀ p ∈ acc, 0 < p.2) →
      ∀ p ∈ data.foldl
        (fun acc e =>
          if e.1 ∈ scope then e.2.foldl (fun a wc => addCount a wc.1 wc.2) acc else acc)
        acc, 0 < p.2 by
    exact h [] (by simp)
  induction data with
  | nil => intro acc hacc p hp; exact hacc p hp
  | cons e data ih =>
    intro acc hacc p hp
    simp only [List.foldl_cons] at hp
    by_cases he : e.1 ∈ scope
    · rw [if_pos he] at hp
      exact ih (fun e' he' => hdata e' (List.mem_cons_of_mem _ he'))
        _ (entryFold_pos hacc (hdata e (List.mem_cons_self e data))) p hp
    · rw [if_neg he] at hp
      exact ih (fun e' he' => hdata e' (List.mem_cons_of_mem _ he')) acc hacc p hp

theorem mem_keys_addCount (m : List (String × Nat)) (w : String) (c : Nat) (x : String) :
    x ∈ (addCount m w c).map Prod.fst ↔ x ∈ m.map Prod.fst ∨ x = w := by
  induction m with
  | nil => simp [addCount]
  | cons q m ih =>
    by_cases hq : q.1 = w
    · simp only [addCount, if_pos hq, List.map_cons, List.mem_cons]
      rw [hq]
      tauto
    · simp only [addCount, if_neg hq, List.map_cons, List.mem_cons, ih]
      tauto

theorem nodupKeys_addCount {m : List (String × Nat)} {w : String} {c : Nat}
    (hm : (m.map Prod.fst).Nodup) : ((addCount m w c).map Prod.fst).Nodup := by
  induction m with
  | nil => simp [addCount]
  | cons q m ih =>
    simp only [List.map_cons, List.nodup_cons] at hm
    by_cases hq : q.1 = w
    · simp only [addCount, if_pos hq, List.map_cons, List.nodup_cons]
      exact hq ▸ hm
    · simp only [addCount, if_neg hq, List.map_cons, List.nodup_cons, mem_keys_addCount]
      exact ⟨fun h => h.elim hm.1 hq, ih hm.2⟩

theorem nodupKeys_entryFold {acc wc : List (String × Nat)}
    (hacc : (acc.map Prod.fst).Nodup) :
    ((wc.foldl (fun a q => addCount a q.1 q.2) acc).map Prod.fst).Nodup := by
  induction wc generalizing acc with
  | nil => exact hacc
  | cons q wc ih => exact ih (nodupKeys_addCount hacc)

theorem nodupKeys_aggregate (data : List (String × List (String × Nat)))
    (scope : List String) :
    ((aggregateWordCounts data scope).map Prod.fst).Nodup := by
  suffices h : ∀ (acc : List (String × Nat)), (acc.map Prod.fst).Nodup →
      ((data.foldl
        (fun acc e =>
          if e.1 ∈ scope then e.2.foldl (fun a wc => addCount a wc.1 wc.2) acc else acc)
        acc).map Prod.fst).Nodup by
    exact h [] (by simp)
  induction data with
  | nil => intro acc hacc; exact hacc
  | cons e data ih =>
    intro acc hacc
    simp only [List.foldl_cons]
    by_cases he : e.1 ∈ scope
    · rw [if_pos he]
      exact ih _ (nodupKeys_entryFold hacc)
    · rw [if_neg he]
      exact ih acc hacc

theorem getTopWords_sorted (data : List (String × List (String × Nat)))
    (scope : List String) (k : Int) :
    List.Sorted countGE (getTopWords data scope k) := by
  have hs : List.Sorted countGE (List.insertionSort countGE (aggregateWordCounts data scope)) :=
    List.sorted_insertionSort countGE _
  unfold getTopWords pySlice
  by_cases hk : (0 : Int) ≤ k
  · rw [if_pos hk]
    exact hs.sublist (List.take_sublist _ _)
  · rw [if_neg hk]
    exact hs.sublist (List.take_sublist _ _)

theorem getTopWords_length_pos (data : List (String × List (String × Nat)))
    (scope : List String) (k : Int) (hk : 0 < k) :
    (getTopWords data scope k).length =
      min k.toNat (aggregateWordCounts data scope).length := by
  unfold getTopWords pySlice
  rw [if_pos (le_of_lt hk), List.length_take, List.length_insertionSort]

theorem fetchAttempts_always_rateLimited (env : Nat → FetchReply)
    (h : ∀ n, env n = FetchReply.rateLimited) :
    ∀ (fuel attempt : Nat), fetchAttempts env attempt fuel = (none, attempt + fuel) := by
  intro fuel
  induction fuel with
  | zero => intro attempt; simp [fetchAttempts]
  | succ fuel ih =>
    intro attempt
    rw [fetchAttempts, h attempt, ih (attempt + 1)]
    have harith : attempt + 1 + fuel = attempt + (fuel + 1) := by omega
    rw [harith]

theorem fetchAndFilterContent_always_rateLimited (bank : List String)
    (env : Nat → FetchReply) (h : ∀ n, env n = FetchReply.rateLimited) :
    fetchAndFilterContent bank env = (none, MAX_RETRY_FOR_BACKOFF) := by
  unfold fetchAndFilterContent
  rw [fetchAttempts_always_rateLimited env h MAX_RETRY_FOR_BACKOFF 0]
  simp

/-- C2: a URL whose every fetch attempt is rate-limited (HTTP 429) is
attempted exactly `MAX_RETRY_FOR_BACKOFF = 5` times, is appended to its
batch's `failed_urls` exactly once, gains no entry in the batch's
`processed_urls`, and the run's final cache still has no entry for it. -/
theorem C2_rate_limited_retry (bank : List String) (env : String → Nat → FetchReply)
    (batchSize : Nat) (http_urls : List String) (file_name file_id : String)
    (st : PipelineState) (batch : List String) (u : String)
    (hrl : ∀ n, env u n = FetchReply.rateLimited)
    (hmem : u ∈ batch) (hnd : batch.Nodup)
    (hc : lookupA st.cache u = none) :
    (fetchAndFilterContent bank (env u)).2 = MAX_RETRY_FOR_BACKOFF ∧
    (runBatch bank env batch).2.count u = 1 ∧
    lookupA (runBatch bank env batch).1 u = none ∧
    lookupA (executeUpload env bank batchSize http_urls file_name file_id st).1.cache u =
      none := by
  have hfail : fetchAndFilterContent bank (env u) = (none, MAX_RETRY_FOR_BACKOFF) :=
    fetchAndFilterContent_always_rateLimited bank (env u) hrl
  have hsucc : fetchSucceeds bank env u = false := by
    simp [fetchSucceeds, hfail]
  refine ⟨by rw [hfail], ?_, ?_, ?_⟩
  · rw [runBatch_snd, count_filter_eq]
    simp only [hsucc, Bool.not_false, if_true]
    exact List.count_eq_one_of_mem hnd hmem
  · rw [runBatch_fst_lookup]
    rw [if_neg]
    rintro ⟨_, hs⟩
    rw [hsucc] at hs
    exact Bool.false_ne_true hs
  · rw [executeUpload_cache, lookupA_cacheAfterBatches]
    rw [if_neg, hc]
    rintro ⟨_, hs⟩
    rw [hsucc] at hs
    exact Bool.false_ne_true hs

/-- Witness for C2 at a concrete always-rate-limited URL. -/
theorem C2_rate_limited_retry_witness :
    (fetchAndFilterContent [] ((fun _ _ => FetchReply.rateLimited) "u")).2 =
      MAX_RETRY_FOR_BACKOFF ∧
    (runBatch [] (fun _ _ => FetchReply.rateLimited) ["u"]).2.count "u" = 1 ∧
    lookupA (runBatch [] (fun _ _ => FetchReply.rateLimited) ["u"]).1 "u" = none ∧
    lookupA
      (executeUpload (fun _ _ => FetchReply.rateLimited) [] 1 ["u"] "essays.txt" "job-1"
        ⟨[], []⟩).1.cache "u" = none :=
  C2_rate_limited_retry [] (fun _ _ => FetchReply.rateLimited) 1 ["u"] "essays.txt" "job-1"
    ⟨[], []⟩ ["u"] "u" (fun _ => rfl) (by simp) (by simp) (by simp [lookupA])

/-- C3: batches commit sequentially — the cache state reached after the first
`i` per-batch commits already contains the entry of every URL that succeeded
in one of those `i` batches (so an abort between batches loses at most the
in-flight batch), and the run's final cache is exactly the sequential fold of
the per-batch `write_to_json` commits. -/
theorem C3_batch_checkpoint (env : String → Nat → FetchReply) (bank : List String)
    (batchSize : Nat) (http_urls : List String) (file_name file_id : String)
    (st : PipelineState) (i : Nat) (b : List String) (u : String)
    (hb : b ∈ (batchesFor st batchSize http_urls).take i)
    (hu : u ∈ b)
    (hsucc : fetchSucceeds bank env u = true) :
    lookupA
      (cacheAfterBatches bank env st.cache ((batchesFor st batchSize http_urls).take i)) u =
      some (urlEntryVal bank env u) ∧
    (executeUpload env bank batchSize http_urls file_name file_id st).1.cache =
      cacheAfterBatches bank env st.cache (batchesFor st batchSize http_urls) := by
  constructor
  · rw [lookupA_cacheAfterBatches]
    exact if_pos ⟨⟨b, hb, hu⟩, hsucc⟩
  · exact executeUpload_cache env bank batchSize http_urls file_name file_id st

/-- Witness for C3: one successfully fetched URL is present in the cache
after the first batch commit. -/
theorem C3_batch_checkpoint_witness :
    lookupA
      (cacheAfterBatches ["apple"] (fun _ _ => FetchReply.ok ["apple"]) []
        ((batchesFor ⟨[], []⟩ 1 ["u"]).take 1)) "u" =
      some (urlEntryVal ["apple"] (fun _ _ => FetchReply.ok ["apple"]) "u") ∧
    (executeUpload (fun _ _ => FetchReply.ok ["apple"]) ["apple"] 1 ["u"] "essays.txt"
      "job-1" ⟨[], []⟩).1.cache =
      cacheAfterBatches ["apple"] (fun _ _ => FetchReply.ok ["apple"]) []
        (batchesFor ⟨[], []⟩ 1 ["u"]) :=
  C3_batch_checkpoint (fun _ _ => FetchReply.ok ["apple"]) ["apple"] 1 ["u"] "essays.txt"
    "job-1" ⟨[], []⟩ 1 ["u"] "u" (by decide) (by decide) (by decide)

/-- C8: a submitted URL already present in the pre-job cache snapshot is in
no batch (never fetched), its cache entry is unchanged by the run, and the
`write_to_json` merge never removes a key it is not given. -/
theorem C8_cached_url_skipped (env : String → Nat → FetchReply) (bank : List String)
    (batchSize : Nat) (http_urls : List String) (file_name file_id : String)
    (st : PipelineState) (u : String)
    (hc : hasKey st.cache u = true) :
    (∀ b ∈ batchesFor st batchSize http_urls, u ∉ b) ∧
    lookupA (executeUpload env bank batchSize http_urls file_name file_id st).1.cache u =
      lookupA st.cache u ∧
    (∀ (old new : List (String × List (String × Nat))),
      hasKey new u = false → lookupA (updateMap old new) u = lookupA old u) := by
  have hnotfiltered : u ∉ filteredOf st http_urls := by
    intro hmem
    have := (List.mem_filter.mp hmem).2
    rw [hc] at this
    simp at this
  have hnobatch : ∀ b ∈ batchesFor st batchSize http_urls, u ∉ b := by
    intro b hb hub
    exact hnotfiltered
      ((sublist_of_mem_batchesOf batchSize (filteredOf st http_urls) b hb).subset hub)
  refine ⟨hnobatch, ?_, ?_⟩
  · rw [executeUpload_cache, lookupA_cacheAfterBatches, if_neg]
    rintro ⟨⟨b, hb, hub⟩, _⟩
    exact hnobatch b hb hub
  · intro old new hnk
    exact lookupA_updateMap_of_not_hasKey new old u (by simp [hnk])

/-- Witness for C8 at a concrete cached URL. -/
theorem C8_cached_url_skipped_witness :
    (∀ b ∈ batchesFor ⟨[("u", [("apple", 2)])], []⟩ 1 ["u", "v"], "u" ∉ b) ∧
    lookupA
      (executeUpload (fun _ _ => FetchReply.clientError) [] 1 ["u", "v"] "essays.txt"
        "job-1" ⟨[("u", [("apple", 2)])], []⟩).1.cache "u" =
      lookupA ([("u", [("apple", 2)])] : List (String × List (String × Nat))) "u" ∧
    (∀ (old new : List (String × List (String × Nat))),
      hasKey new "u" = false → lookupA (updateMap old new) "u" = lookupA old "u") :=
  C8_cached_url_skipped (fun _ _ => FetchReply.clientError) [] 1 ["u", "v"] "essays.txt"
    "job-1" ⟨[("u", [("apple", 2)])], []⟩ "u" (by decide)

/-- C10: an empty-string entry of the submitted URL list is kept in the job
record's stored `http_urls` set, is in no batch (never fetched), never
appears in the returned or finalized `failed_urls`, and gains no cache
entry. -/
theorem C10_empty_string_urls (env : String → Nat → FetchReply) (bank : List String)
    (batchSize : Nat) (http_urls : List String) (file_name file_id : String)
    (st : PipelineState)
    (hmem : "" ∈ http_urls) (hc : lookupA st.cache "" = none) :
    "" ∈ submittedOf http_urls ∧
    lookupA (executeUpload env bank batchSize http_urls file_name file_id st).1.registry
        file_id =
      some ⟨file_name, FileStatus.processed, submittedOf http_urls,
        (executeUpload env bank batchSize http_urls file_name file_id st).2⟩ ∧
    (∀ b ∈ batchesFor st batchSize http_urls, "" ∉ b) ∧
    "" ∉ (executeUpload env bank batchSize http_urls file_name file_id st).2 ∧
    lookupA (executeUpload env bank batchSize http_urls file_name file_id st).1.cache "" =
      none := by
  have hnotfiltered : "" ∉ filteredOf st http_urls := by
    intro hm
    have := (List.mem_filter.mp hm).2
    simp at this
  have hnobatch : ∀ b ∈ batchesFor st batchSize http_urls, "" ∉ b := by
    intro b hb hub
    exact hnotfiltered
      ((sublist_of_mem_batchesOf batchSize (filteredOf st http_urls) b hb).subset hub)
  refine ⟨(mem_counterKeys http_urls "").mpr hmem,
    executeUpload_registry env bank batchSize http_urls file_name file_id st,
    hnobatch, ?_, ?_⟩
  · intro hfail
    exact hnotfiltered
      (executeUpload_failed_mem env bank batchSize http_urls file_name file_id st "" hfail).1
  · rw [executeUpload_cache, lookupA_cacheAfterBatches, if_neg, hc]
    rintro ⟨⟨b, hb, hub⟩, _⟩
    exact hnobatch b hb hub

/-- Witness for C10 at a concrete submission containing an empty line. -/
theorem C10_empty_string_urls_witness :
    "" ∈ submittedOf ["u", ""] ∧
    lookupA
      (executeUpload (fun _ _ => FetchReply.clientError) [] 1 ["u", ""] "essays.txt"
        "job-1" ⟨[], []⟩).1.registry "job-1" =
      some ⟨"essays.txt", FileStatus.processed, submittedOf ["u", ""],
        (executeUpload (fun _ _ => FetchReply.clientError) [] 1 ["u", ""] "essays.txt"
          "job-1" ⟨[], []⟩).2⟩ ∧
    (∀ b ∈ batchesFor ⟨[], []⟩ 1 ["u", ""], "" ∉ b) ∧
    "" ∉ (executeUpload (fun _ _ => FetchReply.clientError) [] 1 ["u", ""] "essays.txt"
        "job-1" ⟨[], []⟩).2 ∧
    lookupA
      (executeUpload (fun _ _ => FetchReply.clientError) [] 1 ["u", ""] "essays.txt"
        "job-1" ⟨[], []⟩).1.cache "" = none :=
  C10_empty_string_urls (fun _ _ => FetchReply.clientError) [] 1 ["u", ""] "essays.txt"
    "job-1" ⟨[], []⟩ (by decide) (by decide)

/-- C1: failing input for the finalization invariant. With two submitted
URLs, batch size 1 and every fetch failing, the run has two batches and each
batch's only URL fails, yet the finalized job record's `failed_urls` is
`["u2"]` only: `execute` rebinds `failed_urls` to each batch's own list, so
the failure of `"u1"` (recorded in batch 1, first conjunct) is absent from
the finalized record, `"u1"` is no cache key either, and the invariant
`submitted_urls = success_urls ∪ failed_urls` is violated. -/
theorem C1_failed_urls_lost_across_batches :
    batchesFor ⟨[], []⟩ 1 ["u1", "u2"] = [["u1"], ["u2"]] ∧
    (runBatch [] (fun _ _ => FetchReply.clientError) ["u1"]).2 = ["u1"] ∧
    (executeUpload (fun _ _ => FetchReply.clientError) [] 1 ["u1", "u2"] "essays.txt"
      "job-1" ⟨[], []⟩).2 = ["u2"] ∧
    lookupA
      (executeUpload (fun _ _ => FetchReply.clientError) [] 1 ["u1", "u2"] "essays.txt"
        "job-1" ⟨[], []⟩).1.registry "job-1" =
      some ⟨"essays.txt", FileStatus.processed, ["u1", "u2"], ["u2"]⟩ ∧
    lookupA
      (executeUpload (fun _ _ => FetchReply.clientError) [] 1 ["u1", "u2"] "essays.txt"
        "job-1" ⟨[], []⟩).1.cache "u1" = none ∧
    ¬ (∀ u ∈ (["u1", "u2"] : List String),
        hasKey
          (executeUpload (fun _ _ => FetchReply.clientError) [] 1 ["u1", "u2"] "essays.txt"
            "job-1" ⟨[], []⟩).1.cache u = true ∨
        u ∈ (executeUpload (fun _ _ => FetchReply.clientError) [] 1 ["u1", "u2"]
          "essays.txt" "job-1" ⟨[], []⟩).2) := by
  refine ⟨by decide, by decide, by decide, by decide, by decide, ?_⟩
  intro h
  rcases h "u1" (by decide) with h1 | h1
  · exact absurd h1 (by decide)
  · exact absurd h1 (by decide)

/-- C4 counterexample: a registry whose job finalized with terminal status
Failed does not get the `{ top_words, failed_urls, file_id }` result shape
the claim asserts for finalized jobs — the code answers it with the
still-getting-processed message (whose wording also differs from the claim's
quoted string). -/
theorem C4_failed_job_counterexample :
    getMaxCountsExecute [("job-1", ⟨"essays.txt", FileStatus.failed, ["u"], ["u"]⟩)] []
      "job-1" 10 = QueryResponse.message FILE_STILL_GETTING_PROCESSED ∧
    isResultShape
      (getMaxCountsExecute [("job-1", ⟨"essays.txt", FileStatus.failed, ["u"], ["u"]⟩)] []
        "job-1" 10) = false ∧
    FILE_STILL_GETTING_PROCESSED ≠
      "File is still getting processed, Please check after sometime." := by
  refine ⟨by decide, by decide, by decide⟩

/-- C4 amended: the query response is one of exactly three shapes decided by
the registry state — unknown id yields the does-not-exist message; a known id
whose status is not Processed (still Processing, or finalized as Failed)
yields the message `"File is Still Getting Processed, Please check after
sometime."`; only a job with status Processed yields the
`{ top_words, failed_urls, file_id }` result, and no aggregation happens in
the two message cases. -/
theorem C4_query_response_shapes (registry : List (String × JobRecord))
    (cache : List (String × List (String × Nat))) (fid : String) (k : Int) :
    (lookupA registry fid = none →
      getMaxCountsExecute registry cache fid k =
        QueryResponse.message FILE_DOES_NOT_EXIST) ∧
    (∀ r, lookupA registry fid = some r → r.status ≠ FileStatus.processed →
      getMaxCountsExecute registry cache fid k =
        QueryResponse.message FILE_STILL_GETTING_PROCESSED) ∧
    (∀ r, lookupA registry fid = some r → r.status = FileStatus.processed →
      getMaxCountsExecute registry cache fid k =
        QueryResponse.result (getTopWords cache r.http_urls (resolveTopWords k))
          r.failed_urls fid) := by
  refine ⟨?_, ?_, ?_⟩
  · intro hnone
    simp [getMaxCountsExecute, checkStatusInFile, hnone]
  · intro r hr hst
    simp [getMaxCountsExecute, checkStatusInFile, hr, hst]
  · intro r hr hst
    simp [getMaxCountsExecute, checkStatusInFile, hr, hst]

/-- Witness for C4 applying the three-shape theorem to a Processed record. -/
theorem C4_query_response_shapes_witness :
    getMaxCountsExecute [("job-1", ⟨"essays.txt", FileStatus.processed, ["u"], ["v"]⟩)]
      [] "job-1" 0 =
      QueryResponse.result (getTopWords [] ["u"] (resolveTopWords 0)) ["v"] "job-1" :=
  (C4_query_response_shapes
      [("job-1", ⟨"essays.txt", FileStatus.processed, ["u"], ["v"]⟩)] [] "job-1" 0).2.2
    ⟨"essays.txt", FileStatus.processed, ["u"], ["v"]⟩ (by decide) rfl

/-- C5 counterexample: a negative requested `k` is not replaced by the
documented default — `if not self.top_words` only catches `0`, and the Python
slice `sorted_words[:-1]` then drops the lowest-count entry instead of
returning the default-`k` result. -/
theorem C5_negative_k_counterexample :
    resolveTopWords (-1) = -1 ∧
    getTopWords [("u", [("a", 1), ("b", 2), ("c", 3)])] ["u"] (-1) =
      [("c", 3), ("b", 2)] ∧
    getTopWords [("u", [("a", 1), ("b", 2), ("c", 3)])] ["u"]
      (DEFAULT_TOP_WORDS_COUNT : Int) = [("c", 3), ("b", 2), ("a", 1)] ∧
    getTopWords [("u", [("a", 1), ("b", 2), ("c", 3)])] ["u"] (-1) ≠
      getTopWords [("u", [("a", 1), ("b", 2), ("c", 3)])] ["u"]
        (DEFAULT_TOP_WORDS_COUNT : Int) := by
  refine ⟨by decide, by decide, by decide, by decide⟩

/-- C5 amended: for `k > 0` and a cache whose stored counts are positive, the
`topWords` result length is `min k (number of distinct words with nonzero
aggregated count)`; `k = 0` (the router's "unspecified") falls back to the
documented default 10; a negative `k` is passed through unvalidated and
yields the sorted aggregation with its last `|k|` entries dropped. -/
theorem C5_top_k_length (data : List (String × List (String × Nat)))
    (scope : List String) (k : Int)
    (hpos : ∀ e ∈ data, ∀ q ∈ e.2, 0 < q.2) (hk : 0 < k) :
    (getTopWords data scope k).length =
      min k.toNat
        (((aggregateWordCounts data scope).filter (fun p => p.2 != 0)).length) ∧
    resolveTopWords 0 = (DEFAULT_TOP_WORDS_COUNT : Int) ∧
    (∀ j : Int, j < 0 → getTopWords data scope j =
      (List.insertionSort countGE (aggregateWordCounts data scope)).take
        ((aggregateWordCounts data scope).length - (-j).toNat)) := by
  refine ⟨?_, by simp [resolveTopWords], ?_⟩
  · have hfilter : (aggregateWordCounts data scope).filter (fun p => p.2 != 0) =
        aggregateWordCounts data scope := by
      refine List.filter_eq_self.mpr ?_
      intro p hp
      have hpp := aggregate_pos hpos p hp
      simpa using hpp.ne'
    rw [hfilter, getTopWords_length_pos data scope k hk]
  · intro j hj
    unfold getTopWords pySlice
    rw [if_neg (by omega : ¬ (0 : Int) ≤ j), List.length_insertionSort]

/-- Witness for C5 on the three-word cache with `k = 2`. -/
theorem C5_top_k_length_witness :
    (getTopWords [("u", [("a", 1), ("b", 2), ("c", 3)])] ["u"] 2).length =
      min (2 : Int).toNat
        (((aggregateWordCounts [("u", [("a", 1), ("b", 2), ("c", 3)])] ["u"]).filter
          (fun p => p.2 != 0)).length) :=
  (C5_top_k_length [("u", [("a", 1), ("b", 2), ("c", 3)])] ["u"] 2
    (by decide) (by decide)).1

/-- C6: the vocabulary filter of `fetch_and_filter_content` is exact
membership under the code's single (case-sensitive) policy — a token is
retained iff it is literally a member of the word bank, with the retained
count of a token equal to its occurrence count in the text independently of
token positions (any permutation of the token list yields the same counts) —
and the per-URL `Counter` maps each retained word to its occurrence count. -/
theorem C6_vocabulary_filter (bank tokens : List String) (t : String) :
    (t ∈ tokens.filter (fun w => bank.contains w) ↔ t ∈ tokens ∧ t ∈ bank) ∧
    ((tokens.filter (fun w => bank.contains w)).count t =
      if t ∈ bank then tokens.count t else 0) ∧
    (∀ tokens' : List String, tokens.Perm tokens' →
      (filterTokens bank tokens).count t = (filterTokens bank tokens').count t) ∧
    lookupCount (counterOf (filterTokens bank tokens)) t =
      (filterTokens bank tokens).count t := by
  refine ⟨?_, ?_, ?_, lookupCount_counterOf _ _⟩
  · simp [List.mem_filter, List.contains, List.elem_iff]
  · rw [count_filter_eq]
    by_cases h : t ∈ bank
    · have hb : bank.contains t = true := by
        simpa [List.contains] using h
      rw [hb, if_pos h]
      simp
    · have hb : bank.contains t = false := by
        simpa [List.contains] using h
      rw [hb, if_neg h]
      simp
  · intro tokens' hperm
    unfold filterTokens
    exact ((hperm.filter _).map _).count_eq t

/-- Witness for C6 on the spec's scenario vocabulary and text: reordering the
tokens does not change a retained word's count. -/
theorem C6_vocabulary_filter_witness :
    (filterTokens ["apple", "banana", "cherry"]
      ["apple", "banana", "cherry", "date"]).count "apple" =
      (filterTokens ["apple", "banana", "cherry"]
        ["date", "cherry", "banana", "apple"]).count "apple" :=
  (C6_vocabulary_filter ["apple", "banana", "cherry"]
    ["apple", "banana", "cherry", "date"] "apple").2.2.1
    ["date", "cherry", "banana", "apple"] (by decide)

/-- C7: `topWords` aggregation — the aggregated count of a word is the sum,
over exactly the cache entries whose key is in the URL scope, of that entry's
count for the word (0 when absent, and out-of-scope entries contribute
nothing), the returned sequence is non-increasing by count, and the spec's
two-URL example evaluates to `{"apple": 3, "cherry": 2}` for `k = 2`. -/
theorem C7_aggregation_top_words (data : List (String × List (String × Nat)))
    (scope : List String) (k : Int) (w : String) :
    lookupCount (aggregateWordCounts data scope) w =
      ((data.filter (fun e => decide (e.1 ∈ scope))).map
        (fun e => entryCount e.2 w)).sum ∧
    List.Sorted countGE (getTopWords data scope k) ∧
    getTopWords [("u1", [("apple", 2), ("banana", 1)]), ("u2", [("apple", 1), ("cherry", 2)])]
      ["u1", "u2"] 2 = [("apple", 3), ("cherry", 2)] :=
  ⟨lookupCount_aggregate data scope w, getTopWords_sorted data scope k, by decide⟩

/-- C9: vocabulary loading — a non-200 status yields the empty vocabulary
instead of an error, and a 200 status yields exactly the deduplicated,
lower-cased set of the input lines that are entirely alphabetic and longer
than 2 characters. -/
theorem C9_word_bank_loading (status : Nat) (lines : List String) :
    (status ≠ 200 → getWordBanks status lines = []) ∧
    (∀ w, w ∈ getWordBanks 200 lines ↔
      ∃ l ∈ lines, pyIsAlpha l = true ∧ 2 < l.length ∧ l.toLower = w) ∧
    (getWordBanks status lines).Nodup := by
  refine ⟨?_, ?_, ?_⟩
  · intro hs
    simp [getWordBanks, hs]
  · intro w
    unfold getWordBanks pySet
    rw [if_pos rfl, mem_counterKeys]
    simp only [List.mem_map, List.mem_filter, Bool.and_eq_true, decide_eq_true_eq]
    constructor
    · rintro ⟨l, ⟨hl, ha, hlen⟩, rfl⟩
      exact ⟨l, hl, ha, hlen, by rw [pyStrip_eq_self ha]⟩
    · rintro ⟨l, hl, ha, hlen, hw⟩
      exact ⟨l, ⟨hl, ha, hlen⟩, by rw [pyStrip_eq_self ha, hw]⟩
  · unfold getWordBanks
    by_cases hs : status = 200
    · rw [if_pos hs]
      exact nodup_counterKeys _
    · rw [if_neg hs]
      exact List.nodup_nil

/-- Witness for C9: a failed vocabulary fetch yields the empty set. -/
theorem C9_word_bank_loading_witness :
    getWordBanks 404 ["apple", "Banana", "ab", "h3llo"] = [] ∧
    ("banana" ∈ getWordBanks 200 ["apple", "Banana", "ab", "h3llo"] ↔
      ∃ l ∈ ["apple", "Banana", "ab", "h3llo"],
        pyIsAlpha l = true ∧ 2 < l.length ∧ l.toLower = "banana") :=
  ⟨(C9_word_bank_loading 404 ["apple", "Banana", "ab", "h3llo"]).1 (by decide),
    (C9_word_bank_loading 200 ["apple", "Banana", "ab", "h3llo"]).2.1 "banana"⟩
